import Mathlib

/-!
Verification development for the `web_ipc` repository.

Shallow embedding of the parts of the source relevant to the frozen claims:

* `src/web_ipc/web_utils.py` — `pickle_dumps` / `pickle_loads` (serialization
  plus symmetric envelope encryption) and the credential database boundary;
* `src/web_ipc/encrypt.py` — `Cipher.encrypt` / `Cipher.decrypt` (the Fernet
  authenticated-encryption primitive, modelled as an ideal
  encrypt-then-MAC scheme over byte lists);
* `src/web_ipc/web_server.py` — the session table, the `/message/submit` and
  `/client/auth` request handlers, and the `start` / `stop` supervisor;
* `src/web_ipc/web_client.py` — `__send_post_request` exception mapping and
  the `__post_retry_request` retry loop;
* `src/web_ipc/cert_auth.py` and `src/web_ipc/init.py` — the CA serial
  allocator and certificate definition.

Machine integers do not occur; Python ints are modelled as `Nat`/`Int`.
Python byte strings are modelled as `List Nat` with every element `< 256`.
Fallible operations return `Option`.
-/

namespace WebIPC

/-! ### Python object model

`pickle.dumps` / `pickle.loads` in `web_utils.py` serialize arbitrary Python
objects.  The wire payloads of this system are dictionaries with string keys
and primitive values (credentials dicts and message dicts), so the object
model covers exactly the shapes the handlers distinguish: a string-keyed
mapping versus any non-mapping object.  A Python `str` is modelled as its
list of Unicode code points. -/

/-- Model of a Python `str`: its sequence of Unicode code points. -/
abbrev PyStr := List Nat

/-- A primitive (non-container) Python value appearing in wire payloads. -/
inductive Prim where
  | pnat (n : Nat)
  | pstr (s : PyStr)
deriving DecidableEq

/-- A Python object travelling through `pickle`: either a non-mapping
primitive or a string-keyed dictionary (`dict`). -/
inductive PyObj where
  | prim (p : Prim)
  | dict (entries : List (PyStr × Prim))
deriving DecidableEq

/-! ### Serialization (model of `pickle.dumps` / `pickle.loads`)

A self-delimiting byte encoding: naturals in unary (`n` ones then a zero),
strings as a length followed by the code points, objects and primitives
tagged by a leading byte.  Every emitted byte is `≤ 2 < 256`.  The decoder
is total on arbitrary byte lists and fails (`none`) on any byte sequence
that is not a valid encoding, modelling `pickle.loads` raising (which the
caller `pickle_loads` catches and converts to `None`).  Like `pickle.loads`,
which stops at the end-of-pickle opcode, the decoder ignores trailing
bytes. -/

/-- Unary encoding of a natural number: `n` ones followed by a zero. -/
def encNat (n : Nat) : List Nat :=
  List.replicate n 1 ++ [0]

/-- Encoding of a string: its length, then each code point. -/
def encStr (s : PyStr) : List Nat :=
  encNat s.length ++ (s.map encNat).flatten

/-- Encoding of a primitive value, tagged by its first byte. -/
def encPrim : Prim → List Nat
  | .pnat n => 0 :: encNat n
  | .pstr s => 1 :: encStr s

/-- Encoding of one dictionary entry: key string, then value. -/
def encEntry (e : PyStr × Prim) : List Nat :=
  encStr e.1 ++ encPrim e.2

/-- Encoding of a Python object, tagged by its first byte. -/
def encObj : PyObj → List Nat
  | .prim p => 0 :: encPrim p
  | .dict l => 1 :: (encNat l.length ++ (l.map encEntry).flatten)

/-- Decoder for the unary natural encoding; returns the value and the
remaining bytes, or `none` on malformed input. -/
def decNat : List Nat → Option (Nat × List Nat)
  | 0 :: r => some (0, r)
  | 1 :: r => (decNat r).map fun p => (p.1 + 1, p.2)
  | _ => none

/-- Decoder for a fixed count of naturals. -/
def decNats : Nat → List Nat → Option (List Nat × List Nat)
  | 0, r => some ([], r)
  | k + 1, r =>
    (decNat r).bind fun p =>
      (decNats k p.2).map fun q => (p.1 :: q.1, q.2)

/-- Decoder for a string. -/
def decStr (r : List Nat) : Option (PyStr × List Nat) :=
  (decNat r).bind fun p => decNats p.1 p.2

/-- Decoder for a primitive value. -/
def decPrim : List Nat → Option (Prim × List Nat)
  | 0 :: r => (decNat r).map fun p => (Prim.pnat p.1, p.2)
  | 1 :: r => (decStr r).map fun p => (Prim.pstr p.1, p.2)
  | _ => none

/-- Decoder for one dictionary entry. -/
def decEntry (r : List Nat) : Option ((PyStr × Prim) × List Nat) :=
  (decStr r).bind fun p =>
    (decPrim p.2).map fun q => ((p.1, q.1), q.2)

/-- Decoder for a fixed count of dictionary entries. -/
def decEntries : Nat → List Nat → Option (List (PyStr × Prim) × List Nat)
  | 0, r => some ([], r)
  | k + 1, r =>
    (decEntry r).bind fun p =>
      (decEntries k p.2).map fun q => (p.1 :: q.1, q.2)

/-- Decoder for a Python object. -/
def decObj : List Nat → Option (PyObj × List Nat)
  | 0 :: r => (decPrim r).map fun p => (PyObj.prim p.1, p.2)
  | 1 :: r =>
    (decNat r).bind fun p =>
      (decEntries p.1 p.2).map fun q => (PyObj.dict q.1, q.2)
  | _ => none

/-- Model of `pickle.dumps`: the byte encoding of a Python object. -/
def pickleEnc (o : PyObj) : List Nat := encObj o

/-- Model of `pickle.loads`: decode a leading object, ignore trailing
bytes, `none` on malformed input. -/
def pickleDec (data : List Nat) : Option PyObj :=
  (decObj data).map Prod.fst

/-! ### Cipher (model of `encrypt.py`, the Fernet primitive)

`Cipher.encrypt` / `Cipher.decrypt` in `encrypt.py` delegate to
`cryptography.fernet.Fernet`, an authenticated encryption scheme
(AES-CBC + HMAC, encrypt-then-MAC; `decrypt` raises `InvalidToken` on any
integrity failure).  The library is not part of this repository, so it is
modelled by an ideal encrypt-then-MAC scheme over byte lists faithful to
its documented contract: a position-dependent keystream provides the
(invertible) encryption, and an authentication tag over the ciphertext
body — injective in any single byte of the body — provides the integrity
check.  `decrypt` returning `none` models `Fernet.decrypt` raising. -/

/-- Keystream encryption of a byte list, starting at position `i`. -/
def streamEnc (key : Nat) : Nat → List Nat → List Nat
  | _, [] => []
  | i, b :: r => (b + key + i) % 256 :: streamEnc key (i + 1) r

/-- Keystream decryption, inverse of `streamEnc` on bytes `< 256`. -/
def streamDec (key : Nat) : Nat → List Nat → List Nat
  | _, [] => []
  | i, c :: r => (c + 256 - (key + i) % 256) % 256 :: streamDec key (i + 1) r

/-- Authentication-tag accumulator: the Horner sum `Σ bᵢ·3^i mod 257`.
257 is prime and every byte difference is below it, so the sum detects
any change to a single byte of the body. -/
def macSum : List Nat → Nat
  | [] => 0
  | b :: r => (b + 3 * macSum r) % 257

/-- Authentication tag of a ciphertext body under a key. -/
def mac (key : Nat) (body : List Nat) : Nat :=
  (key + macSum body) % 257

/-- The two-byte serialization of an authentication tag (value `< 257`). -/
def tagBytes (t : Nat) : List Nat :=
  [t % 256, t / 256]

/-- Read a two-byte tag field back as a value; the sentinel `100000`
exceeds every possible tag, so a malformed field never validates. -/
def tagVal : List Nat → Nat
  | [a, b] => a + 256 * b
  | _ => 100000

namespace Cipher

/-- Model of `Cipher.encrypt(data, key)`: Fernet token = encrypted body
followed by the authentication tag over that body. -/
def encrypt (data : List Nat) (key : Nat) : List Nat :=
  let body := streamEnc key 0 data
  body ++ tagBytes (mac key body)

/-- Model of `Cipher.decrypt(data, key)`: split off the trailing tag,
check it against the body, and only then decrypt; `none` models
`Fernet.decrypt` raising `InvalidToken`. -/
def decrypt (data : List Nat) (key : Nat) : Option (List Nat) :=
  if data.length < 2 then none
  else
    let body := data.take (data.length - 2)
    let tb := data.drop (data.length - 2)
    if tagVal tb = mac key body then some (streamDec key 0 body) else none

end Cipher

/-- Flip bit `p` of a byte list (bit `p % 8` of byte `p / 8`). -/
def flipBit (l : List Nat) (p : Nat) : List Nat :=
  l.set (p / 8) ((l.getD (p / 8) 0) ^^^ 2 ^ (p % 8))

/-! ### `WebUtils.pickle_dumps` / `WebUtils.pickle_loads`

From `web_utils.py`: `pickle_dumps` pickles then encrypts; `pickle_loads`
decrypts then unpickles, catching every exception and returning `None`.
The `key or self.key` fallback is modelled by passing the key
explicitly. -/

/-- Model of `WebUtils.pickle_dumps(data, key)`:
`Cipher.encrypt(pickle.dumps(data), key)`. -/
def pickle_dumps (data : PyObj) (key : Nat) : List Nat :=
  Cipher.encrypt (pickleEnc data) key

/-- Model of `WebUtils.pickle_loads(data, key)`:
`pickle.loads(Cipher.decrypt(data, key))` with every failure caught and
converted to `None`. -/
def pickle_loads (data : List Nat) (key : Nat) : Option PyObj :=
  match Cipher.decrypt data key with
  | none => none
  | some b => pickleDec b

/-! ### Session table and request handlers (model of `web_server.py`)

`WebServer.__clients` is a shared map from client IP to an expiry
`datetime`.  Time is modelled in seconds (`Nat`); `timedelta(hours=1)` is
3600 seconds and `stored > datetime.now()` is `now < stored`.  The
credential database (`WebDB.authenticate_user`) is an external
collaborator; its verdict enters the model as a boolean parameter. -/

/-- A client network address. -/
abbrev Addr := String

/-- Model of the `__clients` manager dict: address to expiry time. -/
abbrev ClientTable := List (Addr × Nat)

/-- Model of `del self.__clients[ip]`. -/
def delClient (t : ClientTable) (ip : Addr) : ClientTable :=
  t.filter fun kv => kv.1 ≠ ip

/-- Model of `self.__clients[ip] = expiry` (dict assignment overwrites). -/
def setClient (t : ClientTable) (ip : Addr) (e : Nat) : ClientTable :=
  (ip, e) :: delClient t ip

/-- Model of `WebServer.__credentials_not_expired(client_ip)`: if the
address has an entry whose expiry is strictly after `now`, the client is
authorized and the table is untouched; otherwise any entry is deleted and
the check fails.  Returns the verdict and the updated table. -/
def credentials_not_expired (t : ClientTable) (ip : Addr) (now : Nat) :
    Bool × ClientTable :=
  match t.lookup ip with
  | some e => if now < e then (true, t) else (false, delClient t ip)
  | none => (false, t)

/-- Model of `WebServer.__validate_credentials(data, client_ip)`:
`authOk` is the verdict of `db.authenticate_user` on the supplied
credentials (external credential store).  On success the client's expiry
is set to one hour (3600 s) from now. -/
def validate_credentials (authOk : Bool) (t : ClientTable) (ip : Addr)
    (now : Nat) : Bool × ClientTable :=
  if authOk then (true, setClient t ip (now + 3600)) else (false, t)

/-- Model of the `/message/submit` handler `msg_submit_route`.  The raw
request body (always `bytes`) is the input; `queuePutRaises` models an
exception raised while delivering to the message queue (or logging),
which the handler's `except` clause converts into the generic failure
response after the success state was provisionally set.  (The
`await request.body()` read itself happens before the handler's `try`
block; the model starts from the delivered body.)  Returns the response
`(text, status)` and the updated session table. -/
def msg_submit_route (raw : List Nat) (key : Nat) (ip : Addr)
    (t : ClientTable) (now : Nat) (queuePutRaises : Bool) :
    (String × Nat) × ClientTable :=
  match pickle_loads raw key with
  | some (PyObj.dict _) =>
    match credentials_not_expired t ip now with
    | (true, t') =>
      if queuePutRaises then (("failed", 500), t') else (("success", 200), t')
    | (false, t') => (("expired", 419), t')
  | _ => (("failed", 500), t)

/-- Model of the `/client/auth` handler `client_auth_route`.  `authOk` is
the credential store's verdict on the unsealed credentials;
`validateRaises` models an exception inside the `try` block (e.g. a
database error while validating), answered by the generic failure
response.  On unseal failure or a non-dict payload, `state` stays `False`
and the handler answers `('Unauthorized', 401)`. -/
def client_auth_route (raw : List Nat) (key : Nat) (ip : Addr)
    (t : ClientTable) (now : Nat) (authOk : Bool) (validateRaises : Bool) :
    (String × Nat) × ClientTable :=
  match pickle_loads raw key with
  | some (PyObj.dict _) =>
    if validateRaises then (("failed", 500), t)
    else
      match validate_credentials authOk t ip now with
      | (true, t') => (("success", 200), t')
      | (false, t') => (("Unauthorized", 401), t')
  | _ => (("Unauthorized", 401), t)

/-! ### Transport client (model of `web_client.py`)

`WebClient.__send_post_request` maps the outcome of `requests.post` to a
status code; `WebClient.__post_retry_request` runs the retry loop
(`attempt` from 1 while `attempt < 4`).  The network is modelled as an
oracle giving the outcome of each successive POST; the loop's observable
side effects (submit attempts, sleeps, re-authentications) are recorded
as an event trace. -/

/-- Outcome of one `requests.post` call inside `__send_post_request`. -/
inductive PostOutcome where
  | ok (code : Nat)
  | connError
  | keyboardInterrupt
  | otherExc
deriving DecidableEq

/-- Model of `WebClient.__send_post_request`: the HTTP status code on a
normal response; `405` on `ConnectionError`; `200` on
`KeyboardInterrupt`; `500` on any other exception. -/
def send_post_request : PostOutcome → Nat
  | .ok code => code
  | .connError => 405
  | .keyboardInterrupt => 200
  | .otherExc => 500

/-- Observable events of the retry loop. -/
inductive Ev where
  | posted (status : Nat)
  | slept (units : Nat)
  | authed
deriving DecidableEq

/-- Whether an event is a submit attempt. -/
def Ev.isPosted : Ev → Bool
  | .posted _ => true
  | _ => false

/-- The body of `WebClient.__post_retry_request`'s `while attempt < 4`
loop: `rem` is the number of remaining iterations, `i` indexes the
oracle.  Each iteration posts; `200` returns success, `401` and `419`
trigger `self._authenticate()`, `405` sleeps 2 seconds, and any other
status just retries. -/
def retryGo (oc : Nat → PostOutcome) (i : Nat) : Nat → Bool × List Ev
  | 0 => (false, [])
  | rem + 1 =>
    if send_post_request (oc i) = 200 then
      (true, [Ev.posted (send_post_request (oc i))])
    else if send_post_request (oc i) = 401 ∨ send_post_request (oc i) = 419 then
      ((retryGo oc (i + 1) rem).1,
        Ev.posted (send_post_request (oc i)) :: Ev.authed :: (retryGo oc (i + 1) rem).2)
    else if send_post_request (oc i) = 405 then
      ((retryGo oc (i + 1) rem).1,
        Ev.posted (send_post_request (oc i)) :: Ev.slept 2 :: (retryGo oc (i + 1) rem).2)
    else
      ((retryGo oc (i + 1) rem).1,
        Ev.posted (send_post_request (oc i)) :: (retryGo oc (i + 1) rem).2)

/-- Model of `WebClient.__post_retry_request`: at most 3 iterations
(`attempt` runs 1, 2, 3). -/
def post_retry_request (oc : Nat → PostOutcome) : Bool × List Ev :=
  retryGo oc 0 3

/-- Model of `WebClient.send_msg`: only `dict` messages are sealed and
submitted through the retry handler; anything else fails without a
network call. -/
def send_msg (msg : PyObj) (oc : Nat → PostOutcome) : Bool × List Ev :=
  match msg with
  | .dict _ => post_retry_request oc
  | _ => (false, [])

/-- Whether an event is the connection-failure response (status 405). -/
def isPost405 : Ev → Bool
  | .posted s => s == 405
  | _ => false

/-- Whether an event is a re-authentication trigger (status 401 or 419). -/
def isAuthTrigger : Ev → Bool
  | .posted s => s == 401 || s == 419
  | _ => false

/-- Whether an event is the 2-second backoff sleep. -/
def isSlept2 : Ev → Bool
  | .slept u => u == 2
  | _ => false

/-- Whether an event is a re-authentication. -/
def isAuthed : Ev → Bool
  | .authed => true
  | _ => false

/-- `followedBy p q tr`: in `tr`, every event satisfying `p` is
immediately followed by an event satisfying `q`. -/
def followedBy (p q : Ev → Bool) : List Ev → Bool
  | [] => true
  | e :: rest =>
    (!(p e) || (match rest with | e' :: _ => q e' | [] => false))
      && followedBy p q rest

/-- Outcome oracle used to witness the retry policy: the first POST hits
a connection error, every later one succeeds. -/
def ocW : Nat → PostOutcome :=
  fun i => if i = 0 then PostOutcome.connError else PostOutcome.ok 200

/-! ### Certificate authority serials (model of `cert_auth.py`, `init.py`)

The `ca-serial` file holds a decimal integer.  Its state is modelled as
`Option Int`: `none` means the file cannot be read or its content does
not parse as a Python `int`; `writeFails` models an exception while
rewriting the file.  `CertStore.__next_serial` returns the incremented
value, or `0` when any step raises. -/

/-- Model of `CertStore.__next_serial`: read-increment-rewrite, returning
the new serial and the resulting file content; `0` on any failure. -/
def next_serial (content : Option Int) (writeFails : Bool) : Int × Option Int :=
  match content with
  | none => (0, none)
  | some s => if writeFails then (0, some s) else (s + 1, some (s + 1))

/-- The serial-file content created by `Init.__create_ca_serial_handler`:
the file is written with the literal string `'1'`. -/
def caSerialInit : Int := 1

/-- Serials returned by `n` sequential issuances (single writer, no I/O
failures) starting from the given file content. -/
def issueSerials : Option Int → Nat → List Int
  | _, 0 => []
  | c, n + 1 =>
    let r := next_serial c false
    r.1 :: issueSerials r.2 n

/-- Model of `CertStore.__define_cert`: allocate a serial; a serial of
`0` is falsy, so no certificate is built and the stored certificate
(modelled by the serial it carries) is unchanged.  A nonzero serial is
handed to `x509.CertificateBuilder().serial_number(...)`, which—per the
`cryptography` library contract—rejects non-positive serials by raising
inside the builder chain, before anything is assigned.  Returns
(success, certificate state, serial-file content). -/
def define_cert (content : Option Int) (writeFails : Bool)
    (cert : Option Int) : Bool × Option Int × Option Int :=
  let r := next_serial content writeFails
  if r.1 ≠ 0 then
    if 1 ≤ r.1 then (true, some r.1, r.2) else (false, cert, r.2)
  else (false, cert, r.2)

/-! ### Server supervisor (model of `WebServer.start` / `WebServer.stop`)

The supervisor state records the cleaner thread (absent, or present with
its liveness), the stop event, and a count of listener-worker spawns.
`createOk` models whether thread creation succeeds; `joinOk` models
whether the thread exits within `stop`'s 5-second join timeout. -/

/-- Supervisor-visible state of the web server. -/
structure SupState where
  thread : Option Bool
  stopFlag : Bool
  spawns : Nat
deriving DecidableEq

/-- Model of `WebServer.__create_web_cleaner_thread`: on success a live
cleaner thread exists (which spawns the listener worker); on an exception
the state is unchanged and `False` is returned. -/
def create_web_cleaner_thread (s : SupState) (createOk : Bool) :
    Bool × SupState :=
  if createOk then (true, { s with thread := some true, spawns := s.spawns + 1 })
  else (false, s)

/-- Model of `WebServer.start`: clear the stop event; if a live thread
exists, report success immediately; a dead thread is discarded and a new
one created. -/
def WebServer.start (s : SupState) (createOk : Bool) : Bool × SupState :=
  let s := { s with stopFlag := false }
  match s.thread with
  | some true => (true, s)
  | some false => create_web_cleaner_thread { s with thread := none } createOk
  | none => create_web_cleaner_thread s createOk

/-- Model of `WebServer.stop`: with no thread, report success; with a
live thread, signal stop and join — on timeout report failure and keep
the thread, otherwise discard it and report success; a dead thread is
discarded with success. -/
def WebServer.stop (s : SupState) (joinOk : Bool) : Bool × SupState :=
  match s.thread with
  | none => (true, s)
  | some alive =>
    if alive then
      if joinOk then (true, { s with stopFlag := true, thread := none })
      else (false, { s with stopFlag := true })
    else (true, { s with thread := none })

/-! #### Round-trip lemmas for the serialization layer -/

theorem decNat_encNat (n : Nat) (r : List Nat) :
    decNat (encNat n ++ r) = some (n, r) := by
  induction n with
  | zero => simp [encNat, decNat]
  | succ k ih =>
    simp [encNat, List.replicate_succ] at ih ⊢
    simp [decNat, ih]

theorem decNats_encNats (l : List Nat) (r : List Nat) :
    decNats l.length ((l.map encNat).flatten ++ r) = some (l, r) := by
  induction l generalizing r with
  | nil => simp [decNats]
  | cons a t ih =>
    simp only [List.map_cons, List.flatten, List.length_cons, List.append_assoc]
    simp [decNats, decNat_encNat, ih]

theorem decStr_encStr (s : PyStr) (r : List Nat) :
    decStr (encStr s ++ r) = some (s, r) := by
  simp [encStr, decStr, decNat_encNat, decNats_encNats]

theorem decPrim_encPrim (p : Prim) (r : List Nat) :
    decPrim (encPrim p ++ r) = some (p, r) := by
  cases p with
  | pnat n => simp [encPrim, decPrim, decNat_encNat]
  | pstr s => simp [encPrim, decPrim, decStr_encStr]

theorem decEntry_encEntry (e : PyStr × Prim) (r : List Nat) :
    decEntry (encEntry e ++ r) = some (e, r) := by
  simp [encEntry, decEntry, decStr_encStr, decPrim_encPrim]

theorem decEntries_encEntries (l : List (PyStr × Prim)) (r : List Nat) :
    decEntries l.length ((l.map encEntry).flatten ++ r) = some (l, r) := by
  induction l generalizing r with
  | nil => simp [decEntries]
  | cons a t ih =>
    simp only [List.map_cons, List.flatten, List.length_cons, List.append_assoc]
    simp [decEntries, decEntry_encEntry, ih]

theorem decObj_encObj (o : PyObj) (r : List Nat) :
    decObj (encObj o ++ r) = some (o, r) := by
  cases o with
  | prim p => simp [encObj, decObj, decPrim_encPrim]
  | dict l =>
    simp only [encObj, List.cons_append, List.append_assoc]
    simp [decObj, decNat_encNat, decEntries_encEntries]

theorem pickleDec_pickleEnc (o : PyObj) :
    pickleDec (pickleEnc o) = some o := by
  have h := decObj_encObj o []
  simp only [List.append_nil] at h
  simp [pickleDec, pickleEnc, h]

/-! #### Byte bounds: every encoded byte is below 256 -/

theorem encNat_lt (n : Nat) : ∀ b ∈ encNat n, b < 256 := by
  intro b hb
  simp only [encNat, List.mem_append, List.mem_replicate, List.mem_singleton] at hb
  rcases hb with h | h
  · omega
  · omega

theorem encStr_lt (s : PyStr) : ∀ b ∈ encStr s, b < 256 := by
  intro b hb
  simp only [encStr, List.mem_append, List.mem_flatten] at hb
  rcases hb with h | ⟨l, hl, hb⟩
  · exact encNat_lt _ _ h
  · simp only [List.mem_map] at hl
    obtain ⟨n, _, rfl⟩ := hl
    exact encNat_lt _ _ hb

theorem encPrim_lt (p : Prim) : ∀ b ∈ encPrim p, b < 256 := by
  intro b hb
  cases p with
  | pnat n =>
    simp only [encPrim, List.mem_cons] at hb
    rcases hb with rfl | h
    · omega
    · exact encNat_lt _ _ h
  | pstr s =>
    simp only [encPrim, List.mem_cons] at hb
    rcases hb with rfl | h
    · omega
    · exact encStr_lt _ _ h

theorem encEntry_lt (e : PyStr × Prim) : ∀ b ∈ encEntry e, b < 256 := by
  intro b hb
  simp only [encEntry, List.mem_append] at hb
  rcases hb with h | h
  · exact encStr_lt _ _ h
  · exact encPrim_lt _ _ h

theorem encObj_lt (o : PyObj) : ∀ b ∈ encObj o, b < 256 := by
  intro b hb
  cases o with
  | prim p =>
    simp only [encObj, List.mem_cons] at hb
    rcases hb with rfl | h
    · omega
    · exact encPrim_lt _ _ h
  | dict l =>
    simp only [encObj, List.mem_cons, List.mem_append, List.mem_flatten] at hb
    rcases hb with rfl | h | ⟨m, hm, hb⟩
    · omega
    · exact encNat_lt _ _ h
    · simp only [List.mem_map] at hm
      obtain ⟨e, _, rfl⟩ := hm
      exact encEntry_lt _ _ hb

/-! #### List helpers for the cipher proofs -/

theorem getD_append_lt (l₁ l₂ : List Nat) (i : Nat) (h : i < l₁.length) :
    (l₁ ++ l₂).getD i 0 = l₁.getD i 0 := by
  induction l₁ generalizing i with
  | nil => simp at h
  | cons a t ih =>
    cases i with
    | zero => rfl
    | succ k =>
      simp only [List.length_cons] at h
      simpa [List.getD] using ih k (by omega)

theorem getD_append_ge (l₁ l₂ : List Nat) (i : Nat) (h : l₁.length ≤ i) :
    (l₁ ++ l₂).getD i 0 = l₂.getD (i - l₁.length) 0 := by
  induction l₁ generalizing i with
  | nil => simp
  | cons a t ih =>
    cases i with
    | zero => simp at h
    | succ k =>
      simp only [List.length_cons] at h ⊢
      simpa [List.getD, Nat.succ_sub_succ] using ih k (by omega)

theorem set_append_lt (l₁ l₂ : List Nat) (i v : Nat) (h : i < l₁.length) :
    (l₁ ++ l₂).set i v = l₁.set i v ++ l₂ := by
  induction l₁ generalizing i with
  | nil => simp at h
  | cons a t ih =>
    cases i with
    | zero => rfl
    | succ k =>
      simp only [List.length_cons] at h
      simp [List.set, ih k (by omega)]

theorem set_append_ge (l₁ l₂ : List Nat) (i v : Nat) (h : l₁.length ≤ i) :
    (l₁ ++ l₂).set i v = l₁ ++ l₂.set (i - l₁.length) v := by
  induction l₁ generalizing i with
  | nil => simp
  | cons a t ih =>
    cases i with
    | zero => simp at h
    | succ k =>
      simp only [List.length_cons] at h ⊢
      simp [List.set, Nat.succ_sub_succ, ih k (by omega)]

theorem take_append_len (l₁ l₂ : List Nat) : (l₁ ++ l₂).take l₁.length = l₁ := by
  induction l₁ with
  | nil => simp
  | cons a t ih => simp [List.take, ih]

theorem drop_append_len (l₁ l₂ : List Nat) : (l₁ ++ l₂).drop l₁.length = l₂ := by
  induction l₁ with
  | nil => simp
  | cons a t ih => simp [List.drop, ih]

theorem getD_mem (l : List Nat) (i : Nat) (h : i < l.length) : l.getD i 0 ∈ l := by
  induction l generalizing i with
  | nil => simp at h
  | cons a t ih =>
    cases i with
    | zero => simp [List.getD]
    | succ k =>
      simp only [List.length_cons] at h
      exact List.mem_cons_of_mem _ (by simpa [List.getD] using ih k (by omega))

theorem xor_pow_ne (v b : Nat) : v ^^^ 2 ^ b ≠ v := by
  intro h
  have h2 : v ^^^ (v ^^^ 2 ^ b) = v ^^^ v := by rw [h]
  rw [← Nat.xor_assoc, Nat.xor_self, Nat.zero_xor] at h2
  have : 0 < 2 ^ b := Nat.pos_pow_of_pos b (by omega)
  omega

/-! #### Cipher lemmas -/

theorem streamEnc_length (key : Nat) (i : Nat) (l : List Nat) :
    (streamEnc key i l).length = l.length := by
  induction l generalizing i with
  | nil => rfl
  | cons b r ih => simp [streamEnc, ih]

theorem streamEnc_lt (key : Nat) (i : Nat) (l : List Nat) :
    ∀ b ∈ streamEnc key i l, b < 256 := by
  induction l generalizing i with
  | nil => simp [streamEnc]
  | cons b r ih =>
    intro c hc
    simp only [streamEnc, List.mem_cons] at hc
    rcases hc with rfl | hc
    · exact Nat.mod_lt _ (by omega)
    · exact ih (i + 1) c hc

theorem streamDec_streamEnc (key : Nat) (i : Nat) (l : List Nat)
    (h : ∀ b ∈ l, b < 256) : streamDec key i (streamEnc key i l) = l := by
  induction l generalizing i with
  | nil => rfl
  | cons b r ih =>
    have hb : b < 256 := h b (List.mem_cons_self b r)
    have hr : ∀ x ∈ r, x < 256 := fun x hx => h x (List.mem_cons_of_mem _ hx)
    simp only [streamEnc, streamDec, ih (i + 1) hr, List.cons.injEq, and_true]
    omega

theorem macSum_lt (l : List Nat) : macSum l < 257 := by
  cases l with
  | nil => simp [macSum]
  | cons b r => exact Nat.mod_lt _ (by omega)

theorem mac_lt (key : Nat) (body : List Nat) : mac key body < 257 :=
  Nat.mod_lt _ (by omega)

theorem tagVal_tagBytes (t : Nat) (_h : t < 257) : tagVal (tagBytes t) = t := by
  simp only [tagBytes, tagVal]
  omega

theorem decrypt_split (key : Nat) (body tb : List Nat) (h2 : tb.length = 2) :
    Cipher.decrypt (body ++ tb) key =
      if tagVal tb = mac key body then some (streamDec key 0 body) else none := by
  unfold Cipher.decrypt
  have hlen : (body ++ tb).length = body.length + 2 := by simp [h2]
  rw [hlen, if_neg (by omega : ¬ body.length + 2 < 2)]
  have hsub : body.length + 2 - 2 = body.length := by omega
  rw [hsub]
  simp only [take_append_len, drop_append_len]

theorem decrypt_encrypt (d : List Nat) (key : Nat) (hd : ∀ b ∈ d, b < 256) :
    Cipher.decrypt (Cipher.encrypt d key) key = some d := by
  have henc : Cipher.encrypt d key
      = streamEnc key 0 d ++ tagBytes (mac key (streamEnc key 0 d)) := rfl
  rw [henc, decrypt_split key _ _ (by simp [tagBytes]),
    tagVal_tagBytes _ (mac_lt key _), if_pos rfl, streamDec_streamEnc key 0 d hd]

theorem macSum_set_ne (l : List Nat) (i v' : Nat) (hi : i < l.length)
    (hl : ∀ b ∈ l, b < 257) (hv' : v' < 257) (hne : v' ≠ l.getD i 0) :
    macSum (l.set i v') ≠ macSum l := by
  induction l generalizing i with
  | nil => simp at hi
  | cons b r ih =>
    cases i with
    | zero =>
      have hb : b < 257 := hl b (List.mem_cons_self b r)
      simp only [List.getD_cons_zero] at hne
      simp only [List.set, macSum]
      intro heq
      omega
    | succ k =>
      have hk : k < r.length := by simpa using hi
      have hr : ∀ x ∈ r, x < 257 := fun x hx => hl x (List.mem_cons_of_mem _ hx)
      have hne' : v' ≠ r.getD k 0 := by simpa only [List.getD_cons_succ] using hne
      have hih := ih k hk hr hne'
      have h1 : macSum (r.set k v') < 257 := macSum_lt _
      have h2 : macSum r < 257 := macSum_lt _
      simp only [List.set, macSum]
      intro heq
      omega

theorem mac_set_ne (key : Nat) (l : List Nat) (i v' : Nat) (hi : i < l.length)
    (hl : ∀ b ∈ l, b < 257) (hv' : v' < 257) (hne : v' ≠ l.getD i 0) :
    mac key (l.set i v') ≠ mac key l := by
  have h := macSum_set_ne l i v' hi hl hv' hne
  have h1 : macSum (l.set i v') < 257 := macSum_lt _
  have h2 : macSum l < 257 := macSum_lt _
  simp only [mac]
  intro heq
  omega

theorem decrypt_flipBit (d : List Nat) (key p : Nat)
    (hp : p < 8 * (Cipher.encrypt d key).length) :
    Cipher.decrypt (flipBit (Cipher.encrypt d key) p) key = none := by
  have hbit : p % 8 < 8 := Nat.mod_lt _ (by omega)
  have hpow : (2 : Nat) ^ (p % 8) < 256 := by
    calc (2 : Nat) ^ (p % 8) ≤ 2 ^ 7 := Nat.pow_le_pow_right (by omega) (by omega)
    _ < 256 := by omega
  have hbodylt : ∀ b ∈ streamEnc key 0 d, b < 256 := streamEnc_lt key 0 d
  set body := streamEnc key 0 d with hbody
  set m := mac key body with hm
  have htok : Cipher.encrypt d key = body ++ [m % 256, m / 256] := rfl
  set n := body.length with hn
  have hlen : (Cipher.encrypt d key).length = n + 2 := by
    rw [htok]
    simp
  have hj : p / 8 < n + 2 := by
    rw [hlen] at hp
    omega
  rw [htok]
  unfold flipBit
  by_cases hcase : p / 8 < n
  · -- the flipped bit lies in the ciphertext body
    have hv : (body ++ [m % 256, m / 256]).getD (p / 8) 0 = body.getD (p / 8) 0 :=
      getD_append_lt _ _ _ hcase
    have hvmem : body.getD (p / 8) 0 ∈ body := getD_mem _ _ hcase
    have hvlt : body.getD (p / 8) 0 < 256 := hbodylt _ hvmem
    rw [hv, set_append_lt _ _ _ _ hcase, decrypt_split key _ _ (by simp)]
    have htv : tagVal [m % 256, m / 256] = m := by
      simp only [tagVal]
      omega
    rw [htv]
    have hv'lt : body.getD (p / 8) 0 ^^^ 2 ^ (p % 8) < 256 := by
      have h256 : (256 : Nat) = 2 ^ 8 := by norm_num
      rw [h256] at hvlt hpow ⊢
      exact Nat.xor_lt_two_pow hvlt (by omega)
    have hmacne : mac key (body.set (p / 8) (body.getD (p / 8) 0 ^^^ 2 ^ (p % 8)))
        ≠ mac key body := by
      apply mac_set_ne key body _ _ hcase _ (by omega) (xor_pow_ne _ _)
      intro b hb
      exact Nat.lt_trans (hbodylt b hb) (by omega)
    rw [if_neg (fun heq => hmacne (heq.symm.trans hm))]
  · -- the flipped bit lies in the authentication tag
    have hge : n ≤ p / 8 := by omega
    have hk2 : p / 8 - n < 2 := by omega
    rw [getD_append_ge _ _ _ hge, set_append_ge _ _ _ _ hge,
      decrypt_split key _ _ (by simp [List.length_set])]
    interval_cases hkk : p / 8 - n
    · simp only [List.getD_cons_zero, List.set]
      rw [if_neg]
      simp only [tagVal]
      have hx := xor_pow_ne (m % 256) (p % 8)
      have hmval : mac key body = m := hm.symm
      rw [hmval]
      omega
    · simp only [List.getD_cons_succ, List.getD_cons_zero, List.set]
      rw [if_neg]
      simp only [tagVal]
      have hx := xor_pow_ne (m / 256) (p % 8)
      have hmval : mac key body = m := hm.symm
      rw [hmval]
      omega

/-! #### Retry-loop lemmas -/

theorem isSlept2_eq (e : Ev) (h : isSlept2 e = true) : e = Ev.slept 2 := by
  cases e with
  | posted s => simp [isSlept2] at h
  | slept u =>
    simp only [isSlept2, beq_iff_eq] at h
    rw [h]
  | authed => simp [isSlept2] at h

theorem isAuthed_eq (e : Ev) (h : isAuthed e = true) : e = Ev.authed := by
  cases e with
  | posted s => simp [isAuthed] at h
  | slept u => simp [isAuthed] at h
  | authed => rfl

theorem followedBy_decompose (p q : Ev → Bool) (l : List Ev) :
    ∀ (tr rest : List Ev) (e : Ev), followedBy p q tr = true →
      tr = l ++ e :: rest → p e = true →
      ∃ e' rest', rest = e' :: rest' ∧ q e' = true := by
  induction l with
  | nil =>
    intro tr rest e hf heq hp
    subst heq
    simp only [List.nil_append, followedBy, Bool.and_eq_true, Bool.or_eq_true,
      Bool.not_eq_true'] at hf
    rcases hf.1 with hne | hhead
    · rw [hp] at hne
      cases hne
    · cases rest with
      | nil => cases hhead
      | cons e' r' => exact ⟨e', r', rfl, hhead⟩
  | cons x l' ih =>
    intro tr rest e hf heq hp
    subst heq
    simp only [List.cons_append, followedBy, Bool.and_eq_true] at hf
    exact ih _ rest e hf.2 rfl hp

theorem retryGo_fst (oc : Nat → PostOutcome) (i rem : Nat)
    (h : send_post_request (oc i) ≠ 200) :
    (retryGo oc i (rem + 1)).1 = (retryGo oc (i + 1) rem).1 := by
  simp only [retryGo]
  rw [if_neg h]
  split_ifs <;> rfl

theorem retryGo_success_iff (oc : Nat → PostOutcome) (rem : Nat) :
    ∀ i, (retryGo oc i rem).1 = true ↔
      ∃ j, j < rem ∧ send_post_request (oc (i + j)) = 200 := by
  induction rem with
  | zero => intro i; simp [retryGo]
  | succ k ih =>
    intro i
    by_cases h200 : send_post_request (oc i) = 200
    · constructor
      · intro _
        exact ⟨0, by omega, by simpa using h200⟩
      · intro _
        simp only [retryGo]
        rw [if_pos h200]
    · rw [retryGo_fst oc i k h200, ih (i + 1)]
      constructor
      · rintro ⟨j, hj, hs⟩
        refine ⟨j + 1, by omega, ?_⟩
        rw [show i + (j + 1) = i + 1 + j by omega]
        exact hs
      · rintro ⟨j, hj, hs⟩
        cases j with
        | zero => exact absurd (by simpa using hs) h200
        | succ j' =>
          refine ⟨j', by omega, ?_⟩
          rw [show i + 1 + j' = i + (j' + 1) by omega]
          exact hs

theorem followedBy_cons_false (p q : Ev → Bool) (e : Ev) (rest : List Ev)
    (h : p e = false) :
    followedBy p q (e :: rest) = followedBy p q rest := by
  simp [followedBy, h]

theorem followedBy_cons_true (p q : Ev → Bool) (e e' : Ev) (rest : List Ev)
    (h : q e' = true) :
    followedBy p q (e :: e' :: rest) = followedBy p q (e' :: rest) := by
  simp [followedBy, h]

theorem retryGo_count_le (oc : Nat → PostOutcome) (rem : Nat) :
    ∀ i, ((retryGo oc i rem).2.countP Ev.isPosted) ≤ rem := by
  induction rem with
  | zero => intro i; simp [retryGo]
  | succ k ih =>
    intro i
    have hk := ih (i + 1)
    simp only [retryGo]
    split_ifs with h1 h2 h3 <;>
      simp [List.countP_cons, Ev.isPosted] <;> omega

theorem retryGo_count_false (oc : Nat → PostOutcome) (rem : Nat) :
    ∀ i, (retryGo oc i rem).1 = false →
      ((retryGo oc i rem).2.countP Ev.isPosted) = rem := by
  induction rem with
  | zero => intro i _; simp [retryGo]
  | succ k ih =>
    intro i hfalse
    simp only [retryGo] at hfalse ⊢
    split_ifs at hfalse ⊢ with h1 h2 h3
    · have hk := ih (i + 1) (by simpa using hfalse)
      simp [List.countP_cons, Ev.isPosted]
      omega
    · have hk := ih (i + 1) (by simpa using hfalse)
      simp [List.countP_cons, Ev.isPosted]
      omega
    · have hk := ih (i + 1) (by simpa using hfalse)
      simp [List.countP_cons, Ev.isPosted]
      omega

theorem retryGo_405_slept (oc : Nat → PostOutcome) (rem : Nat) :
    ∀ i, followedBy isPost405 isSlept2 (retryGo oc i rem).2 = true := by
  induction rem with
  | zero => intro i; simp [retryGo, followedBy]
  | succ k ih =>
    intro i
    simp only [retryGo]
    split_ifs with h1 h2 h3
    · rw [h1]
      decide
    · have hne : isPost405 (Ev.posted (send_post_request (oc i))) = false := by
        have : send_post_request (oc i) ≠ 405 := by omega
        simpa [isPost405] using this
      rw [followedBy_cons_false _ _ _ _ hne,
        followedBy_cons_false _ _ _ _ (by rfl : isPost405 Ev.authed = false)]
      exact ih (i + 1)
    · rw [h3]
      rw [followedBy_cons_true _ _ _ _ _ (by rfl : isSlept2 (Ev.slept 2) = true),
        followedBy_cons_false _ _ _ _ (by rfl : isPost405 (Ev.slept 2) = false)]
      exact ih (i + 1)
    · have hne : isPost405 (Ev.posted (send_post_request (oc i))) = false := by
        simpa [isPost405] using h3
      rw [followedBy_cons_false _ _ _ _ hne]
      exact ih (i + 1)

theorem retryGo_auth_authed (oc : Nat → PostOutcome) (rem : Nat) :
    ∀ i, followedBy isAuthTrigger isAuthed (retryGo oc i rem).2 = true := by
  induction rem with
  | zero => intro i; simp [retryGo, followedBy]
  | succ k ih =>
    intro i
    simp only [retryGo]
    split_ifs with h1 h2 h3
    · rw [h1]
      decide
    · rw [followedBy_cons_true _ _ _ _ _ (by rfl : isAuthed Ev.authed = true),
        followedBy_cons_false _ _ _ _ (by rfl : isAuthTrigger Ev.authed = false)]
      exact ih (i + 1)
    · have hne : isAuthTrigger (Ev.posted (send_post_request (oc i))) = false := by
        have h401 : send_post_request (oc i) ≠ 401 := fun h => h2 (Or.inl h)
        have h419 : send_post_request (oc i) ≠ 419 := fun h => h2 (Or.inr h)
        simp [isAuthTrigger, h401, h419]
      rw [followedBy_cons_false _ _ _ _ hne,
        followedBy_cons_false _ _ _ _ (by rfl : isAuthTrigger (Ev.slept 2) = false)]
      exact ih (i + 1)
    · have hne : isAuthTrigger (Ev.posted (send_post_request (oc i))) = false := by
        have h401 : send_post_request (oc i) ≠ 401 := fun h => h2 (Or.inl h)
        have h419 : send_post_request (oc i) ≠ 419 := fun h => h2 (Or.inr h)
        simp [isAuthTrigger, h401, h419]
      rw [followedBy_cons_false _ _ _ _ hne]
      exact ih (i + 1)

/-! #### Serial allocator lemmas -/

theorem issueSerials_eq (n : Nat) :
    ∀ s : Int, issueSerials (some s) n
      = (List.range n).map (fun i : Nat => s + 1 + (i : Int)) := by
  induction n with
  | zero => intro s; simp [issueSerials]
  | succ k ih =>
    intro s
    rw [show issueSerials (some s) (k + 1)
        = (s + 1) :: issueSerials (some (s + 1)) k from rfl,
      ih (s + 1), List.range_succ_eq_map, List.map_cons, List.map_map]
    congr 1
    · push_cast
      ring
    · apply List.map_congr_left
      intro i _
      simp only [Function.comp_apply]
      push_cast
      ring

theorem issueSerials_nodup (s : Int) (n : Nat) :
    (issueSerials (some s) n).Nodup := by
  rw [issueSerials_eq n s]
  refine List.Nodup.map ?_ (List.nodup_range n)
  intro a b hab
  simp only at hab
  omega

/-! ## Claim theorems -/

/-- C1: a successful authenticate for address `ip` at time `T` stores an
expiry of exactly `T + 3600` seconds (one hour); a later authorization
check for `ip` succeeds exactly for query times strictly before
`T + 3600`; and a submit request from `ip` at or after `T + 3600` is
answered with the session-expired status `('expired', 419)`, not the
unauthorized status `('Unauthorized', 401)`. -/
theorem claim1_session_lifecycle (t : ClientTable) (ip : Addr) (T : Nat) :
    ((validate_credentials true t ip T).2.lookup ip = some (T + 3600)) ∧
    (∀ q : Nat,
      (credentials_not_expired (validate_credentials true t ip T).2 ip q).1
        = true ↔ q < T + 3600) ∧
    (∀ (q key : Nat) (raw : List Nat) (m : List (PyStr × Prim)) (qr : Bool),
      pickle_loads raw key = some (PyObj.dict m) → T + 3600 ≤ q →
        (msg_submit_route raw key ip (validate_credentials true t ip T).2 q qr).1
          = ("expired", 419) ∧
        (msg_submit_route raw key ip (validate_credentials true t ip T).2 q qr).1
          ≠ ("Unauthorized", 401)) := by
  have hset : (validate_credentials true t ip T).2 = setClient t ip (T + 3600) := rfl
  have hlook : (setClient t ip (T + 3600)).lookup ip = some (T + 3600) := by
    simp [setClient, List.lookup]
  refine ⟨by rw [hset]; exact hlook, ?_, ?_⟩
  · intro q
    rw [hset]
    simp only [credentials_not_expired, hlook]
    by_cases h : q < T + 3600
    · simp [h]
    · simp [h]
  · intro q key raw m qr hload hq
    rw [hset]
    have hcne : credentials_not_expired (setClient t ip (T + 3600)) ip q
        = (false, delClient (setClient t ip (T + 3600)) ip) := by
      simp only [credentials_not_expired, hlook]
      rw [if_neg (by omega)]
    have hroute : (msg_submit_route raw key ip (setClient t ip (T + 3600)) q qr).1
        = ("expired", 419) := by
      simp [msg_submit_route, hload, hcne]
    refine ⟨hroute, ?_⟩
    rw [hroute]
    simp

/-- C1 witness: concrete instance at `ip = "c"`, `T = 0`. -/
theorem claim1_session_lifecycle_witness :
    ((validate_credentials true [] "c" 0).2.lookup "c" = some 3600) ∧
    ((credentials_not_expired (validate_credentials true [] "c" 0).2 "c" 3599).1
      = true) ∧
    ((msg_submit_route (pickle_dumps (PyObj.dict []) 7) 7 "c"
        (validate_credentials true [] "c" 0).2 3600 false).1 = ("expired", 419)) := by
  have h := claim1_session_lifecycle [] "c" 0
  exact ⟨h.1, (h.2.1 3599).mpr (by omega),
    (h.2.2 3600 7 (pickle_dumps (PyObj.dict []) 7) [] false (by decide) (by omega)).1⟩

/-- C2 counterexample: the serial file is initialized with the literal
`'1'` and the allocator pre-increments, so the first serial issued after
initialization is 2 — the claim's "serial numbers start at 1" is false on
the code. -/
theorem claim2_first_serial_counterexample :
    issueSerials (some caSerialInit) 1 = [2] ∧ (2 : Int) ≠ 1 := by
  decide

/-- C2 (amended): certificate serials start at 2 — the counter file is
initialized to 1 and the allocator returns the read value plus one — and
any `N` sequential issuances by a single writer starting from counter
value `s` return exactly the serials `s+1, …, s+N`, increasing by 1 per
issuance with no gaps and no repeats. -/
theorem claim2_serial_monotonicity (s : Int) (n : Nat) :
    (issueSerials (some s) n
      = (List.range n).map (fun i : Nat => s + 1 + (i : Int))) ∧
    (issueSerials (some s) n).Nodup ∧
    (issueSerials (some caSerialInit) n
      = (List.range n).map (fun i : Nat => (2 : Int) + (i : Int))) := by
  refine ⟨issueSerials_eq n s, issueSerials_nodup s n, ?_⟩
  rw [issueSerials_eq n caSerialInit]
  apply List.map_congr_left
  intro i _
  simp only [caSerialInit]
  ring

/-- C3 counterexample: an authenticate request whose body fails to unseal
is answered with `('Unauthorized', 401)` — exactly the same response as a
failed credential check — not with a distinct generic failure status. -/
theorem claim3_unseal_failure_counterexample :
    (client_auth_route [] 7 "c" [] 0 false false).1 = ("Unauthorized", 401) ∧
    (client_auth_route (pickle_dumps (PyObj.dict []) 7) 7 "c" [] 0 false false).1
      = ("Unauthorized", 401) := by
  constructor
  · rfl
  · decide

/-- C3 (amended): for every authenticate request whose body fails to
unseal or does not deserialize to a mapping, the handler returns the same
unauthorized status `('Unauthorized', 401)` as a failed credential check,
leaving the session table unchanged; the generic 500 failure is produced
only when the handler raises internally. -/
theorem claim3_unseal_failure_unauthorized (raw : List Nat) (key : Nat)
    (ip : Addr) (t : ClientTable) (now : Nat) (authOk : Bool)
    (h : pickle_loads raw key = none ∨
      ∃ p, pickle_loads raw key = some (PyObj.prim p)) :
    (client_auth_route raw key ip t now authOk false).1 = ("Unauthorized", 401) ∧
    (client_auth_route raw key ip t now authOk false).2 = t := by
  rcases h with h | ⟨p, h⟩ <;> simp [client_auth_route, h]

/-- C3 witness: the empty body fails to unseal (too short to carry an
authentication tag); even with valid credentials supplied the route
answers 401. -/
theorem claim3_unseal_failure_unauthorized_witness :
    (client_auth_route [] 5 "a" [] 0 true false).1 = ("Unauthorized", 401) ∧
    (client_auth_route [] 5 "a" [] 0 true false).2 = [] :=
  claim3_unseal_failure_unauthorized [] 5 "a" [] 0 true (Or.inl (by decide))

/-- C4: the retry loop makes at most 3 submit attempts; it returns true
exactly when one of the first 3 responses is the success status 200;
after 3 attempts without success it has made exactly 3 attempts and
returns false; every connection-failure response (405) is immediately
followed by the 2-second backoff sleep; and every 401 or 419 response is
immediately followed by a re-authentication — not by a sleep, so
re-authentication does not count toward the connection-failure
backoff. -/
theorem claim4_client_retry (oc : Nat → PostOutcome) :
    ((post_retry_request oc).2.countP Ev.isPosted ≤ 3) ∧
    ((post_retry_request oc).1 = true ↔
      ∃ j, j < 3 ∧ send_post_request (oc j) = 200) ∧
    ((post_retry_request oc).1 = false →
      (post_retry_request oc).2.countP Ev.isPosted = 3) ∧
    (∀ (l rest : List Ev),
      (post_retry_request oc).2 = l ++ Ev.posted 405 :: rest →
        ∃ rest', rest = Ev.slept 2 :: rest') ∧
    (∀ (l rest : List Ev) (s : Nat),
      (post_retry_request oc).2 = l ++ Ev.posted s :: rest →
        s = 401 ∨ s = 419 → ∃ rest', rest = Ev.authed :: rest') := by
  refine ⟨retryGo_count_le oc 3 0, ?_, retryGo_count_false oc 3 0, ?_, ?_⟩
  · have h := retryGo_success_iff oc 3 0
    simpa using h
  · intro l rest heq
    have hf := retryGo_405_slept oc 3 0
    obtain ⟨e', rest', hr, hq⟩ :=
      followedBy_decompose isPost405 isSlept2 l _ rest _ hf heq (by decide)
    exact ⟨rest', by rw [hr, isSlept2_eq e' hq]⟩
  · intro l rest s heq hs
    have hf := retryGo_auth_authed oc 3 0
    have hp : isAuthTrigger (Ev.posted s) = true := by
      rcases hs with rfl | rfl <;> decide
    obtain ⟨e', rest', hr, hq⟩ :=
      followedBy_decompose isAuthTrigger isAuthed l _ rest _ hf heq hp
    exact ⟨rest', by rw [hr, isAuthed_eq e' hq]⟩

/-- C4 witness: against an oracle whose first POST hits a connection
error and whose later POSTs succeed, the loop succeeds, and the 405
response is followed by the backoff sleep. -/
theorem claim4_client_retry_witness :
    (post_retry_request ocW).1 = true ∧
    (∃ rest', ([Ev.slept 2, Ev.posted 200] : List Ev) = Ev.slept 2 :: rest') := by
  have h := claim4_client_retry ocW
  exact ⟨(h.2.1).mpr ⟨1, by omega, by decide⟩,
    h.2.2.2.1 [] [Ev.slept 2, Ev.posted 200] (by decide)⟩

/-- C5: sealing any string-keyed mapping `M` with a key `K` and unsealing
with the same key returns exactly `M`:
`pickle_loads (pickle_dumps M K) K = M`. -/
theorem claim5_envelope_roundtrip (M : List (PyStr × Prim)) (key : Nat) :
    pickle_loads (pickle_dumps (PyObj.dict M) key) key
      = some (PyObj.dict M) := by
  have hd := decrypt_encrypt (pickleEnc (PyObj.dict M)) key (encObj_lt _)
  simp only [pickle_loads, pickle_dumps, hd]
  exact pickleDec_pickleEnc _

/-- C6: flipping any single bit of a sealed payload makes unsealing fail
with the failure value `none` — in particular it never succeeds with
content different from the original message. -/
theorem claim6_tamper_rejection (o : PyObj) (key p : Nat)
    (hp : p < 8 * (pickle_dumps o key).length) :
    pickle_loads (flipBit (pickle_dumps o key) p) key = none := by
  have hd := decrypt_flipBit (pickleEnc o) key p (by simpa [pickle_dumps] using hp)
  simp only [pickle_loads, pickle_dumps, hd]

/-- C6 witness: flipping bit 0 of a concrete sealed payload makes
unsealing fail. -/
theorem claim6_tamper_rejection_witness :
    0 < 8 * (pickle_dumps (PyObj.dict []) 3).length ∧
    pickle_loads (flipBit (pickle_dumps (PyObj.dict []) 3) 0) 3 = none :=
  ⟨by decide, claim6_tamper_rejection (PyObj.dict []) 3 0 (by decide)⟩

/-- C7: for every request body — including bodies that fail to decrypt or
deserialize — and every exception raised inside the handlers' `try`
blocks (queue delivery, credential validation), both handlers return an
HTTP response from their documented status sets, with the 500-class
response on internal error; no exception escapes the handler. -/
theorem claim7_handlers_never_crash (raw : List Nat) (key : Nat) (ip : Addr)
    (t : ClientTable) (now : Nat) (qr vr authOk : Bool) :
    ((msg_submit_route raw key ip t now qr).1.2 = 200 ∨
      (msg_submit_route raw key ip t now qr).1.2 = 419 ∨
      (msg_submit_route raw key ip t now qr).1.2 = 500) ∧
    ((client_auth_route raw key ip t now authOk vr).1.2 = 200 ∨
      (client_auth_route raw key ip t now authOk vr).1.2 = 401 ∨
      (client_auth_route raw key ip t now authOk vr).1.2 = 500) ∧
    ((msg_submit_route raw key ip t now true).1.2 = 419 ∨
      (msg_submit_route raw key ip t now true).1.2 = 500) ∧
    ((client_auth_route raw key ip t now authOk true).1.2 = 401 ∨
      (client_auth_route raw key ip t now authOk true).1.2 = 500) := by
  rcases hpl : pickle_loads raw key with _ | opj
  · simp [msg_submit_route, client_auth_route, hpl]
  · cases opj with
    | prim p => simp [msg_submit_route, client_auth_route, hpl]
    | dict m =>
      rcases hc : credentials_not_expired t ip now with ⟨b, t'⟩
      cases b <;> cases qr <;> cases vr <;> cases authOk <;>
        simp [msg_submit_route, client_auth_route, validate_credentials, hpl, hc]

/-- C8: `start()` on a running server reports success immediately and
changes nothing except clearing the stop event — in particular no second
listener worker is spawned (the spawn count is unchanged); and a second
`stop()` after any successful `stop()` reports success and changes
nothing. -/
theorem claim8_supervisor_idempotence :
    (∀ (s : SupState) (c : Bool), s.thread = some true →
      WebServer.start s c = (true, { s with stopFlag := false })) ∧
    (∀ (s : SupState) (j j' : Bool), (WebServer.stop s j).1 = true →
      WebServer.stop (WebServer.stop s j).2 j'
        = (true, (WebServer.stop s j).2)) := by
  constructor
  · intro s c h
    simp [WebServer.start, h]
  · intro s j j' h1
    rcases hst : s.thread with _ | alive
    · simp [WebServer.stop, hst]
    · cases alive
      · simp [WebServer.stop, hst]
      · cases j
        · simp [WebServer.stop, hst] at h1
        · simp [WebServer.stop, hst]

/-- C8 witness: concrete running state for the start half; concrete
stopped-then-stopped-again sequence for the stop half. -/
theorem claim8_supervisor_idempotence_witness :
    WebServer.start ⟨some true, true, 1⟩ false = (true, ⟨some true, false, 1⟩) ∧
    WebServer.stop (WebServer.stop ⟨some true, false, 1⟩ true).2 true
      = (true, (WebServer.stop ⟨some true, false, 1⟩ true).2) := by
  have h := claim8_supervisor_idempotence
  exact ⟨h.1 ⟨some true, true, 1⟩ false rfl,
    h.2 ⟨some true, false, 1⟩ true true (by decide)⟩

/-- C9: `__send_post_request` maps a `KeyboardInterrupt` raised during
the POST to status 200, a `ConnectionError` to 405, and any other
exception to 500; consequently `send_msg` reports success when every POST
raises `KeyboardInterrupt`, although delivery was never confirmed. -/
theorem claim9_keyboard_interrupt_success :
    send_post_request PostOutcome.keyboardInterrupt = 200 ∧
    send_post_request PostOutcome.connError = 405 ∧
    send_post_request PostOutcome.otherExc = 500 ∧
    (send_msg (PyObj.dict []) (fun _ => PostOutcome.keyboardInterrupt)).1
      = true := by
  decide

/-- C10 counterexample: with the counter file holding `-1`, the allocator
reads, parses and rewrites the file successfully and still returns 0, so
"returns 0 exactly when the counter file cannot be read, parsed, or
rewritten" is false on the code. -/
theorem claim10_serial_zero_counterexample :
    (next_serial (some (-1)) false).1 = 0 ∧
    next_serial (some (-1)) false = (0, some 0) ∧
    (some (-1) : Option Int) ≠ none := by
  refine ⟨rfl, rfl, by decide⟩

/-- C10 (amended): when the counter file holds a nonnegative integer the
allocator returns 0 exactly when the rewrite fails, and it returns 0
whenever the file cannot be read or parsed (it additionally returns 0,
without any I/O failure, when the file holds `-1`); certificate
definition treats serial 0 as failure, building no certificate and
leaving the stored certificate unchanged; and every certificate actually
issued carries a serial of at least 1. -/
theorem claim10_serial_failure_semantics (s : Int) (wf : Bool)
    (cert : Option Int) (hs : 0 ≤ s) :
    (((next_serial (some s) wf).1 = 0) ↔ wf = true) ∧
    ((next_serial none wf).1 = 0) ∧
    (∀ c : Option Int, (next_serial c wf).1 = 0 →
      define_cert c wf cert = (false, cert, (next_serial c wf).2)) ∧
    (∀ (c : Option Int) (wf' : Bool) (b : Int),
      (define_cert c wf' cert).1 = true →
      (define_cert c wf' cert).2.1 = some b → 1 ≤ b) := by
  refine ⟨?_, ?_, ?_, ?_⟩
  · cases wf
    · simp only [next_serial, if_neg Bool.false_ne_true]
      constructor
      · intro h
        omega
      · intro h
        cases h
    · simp [next_serial]
  · cases wf <;> simp [next_serial]
  · intro c h0
    simp [define_cert, h0]
  · intro c wf' b htrue hsome
    simp only [define_cert] at htrue hsome
    split_ifs at htrue hsome with h0 h1
    · have hb : (next_serial c wf').1 = b := by simpa using hsome
      omega

/-- C10 witness: concrete instances of each amended conjunct. -/
theorem claim10_serial_failure_semantics_witness :
    (((next_serial (some 5) false).1 = 0) ↔ false = true) ∧
    ((next_serial none false).1 = 0) ∧
    (define_cert none false none = (false, none, (next_serial none false).2)) ∧
    (1 : Int) ≤ 6 := by
  have h := claim10_serial_failure_semantics 5 false none (by decide)
  exact ⟨h.1, h.2.1, h.2.2.1 none (by decide),
    h.2.2.2 (some 5) false 6 (by decide) (by decide)⟩

end WebIPC
